import Mathlib

/-!
Verification of the two developer-tooling scripts of the ProxmoxScripts
repository: the line-ending normalizer (src/.check/ConvertLineEndings.py) and
the shell-script auditor (src/.check/ShellCheck.py).  Every definition below is
a shallow embedding translated from the Python source; file contents are byte
lists (Nat values, CR = 13, LF = 10), the file tree is an inductive rose tree,
and each script is modelled as a pure function from that tree (plus per-file
attributes) to the trace of its observable actions.
-/

namespace ProxmoxScripts

/-! ## Byte-level model of the normalizer transformation

ConvertLineEndings.py line 35: new_content = content.replace(b"\r\n", b"\n").
Python bytes.replace scans left to right and replaces non-overlapping
occurrences; replaceCRLF is that scan for the two-byte pattern CR LF. -/

/-- Model of content.replace(b"\x5cr\x5cn", b"\x5cn"): left-to-right
non-overlapping replacement of the byte pair 13, 10 by the single byte 10. -/
def replaceCRLF : List Nat → List Nat
  | [] => []
  | [b] => [b]
  | b :: c :: rest =>
    if b = 13 ∧ c = 10 then 10 :: replaceCRLF rest
    else b :: replaceCRLF (c :: rest)

/-- Whether a byte list contains the two-byte sequence CR LF (13, 10). -/
def containsCRLF : List Nat → Bool
  | b :: c :: rest => if b = 13 ∧ c = 10 then true else containsCRLF (c :: rest)
  | _ => false

/-- Whether a byte list contains the three-byte sequence CR CR LF (13, 13, 10):
exactly the inputs on which one replacement pass leaves a CR LF behind. -/
def containsCRCRLF : List Nat → Bool
  | a :: b :: c :: rest =>
    if a = 13 ∧ b = 13 ∧ c = 10 then true else containsCRCRLF (b :: c :: rest)
  | _ => false

theorem containsCRLF_cons_of_ne (a : Nat) (ha : a ≠ 13) :
    ∀ X : List Nat, containsCRLF (a :: X) = containsCRLF X
  | [] => by simp [containsCRLF]
  | x :: t => by
    simp only [containsCRLF]
    rw [if_neg (fun hc => ha hc.1)]

theorem containsCRCRLF_cons (a : Nat) :
    ∀ X : List Nat, containsCRCRLF X = true → containsCRCRLF (a :: X) = true
  | [], h => by simp [containsCRCRLF] at h
  | [b], h => by simp [containsCRCRLF] at h
  | b :: c :: t, h => by
    simp only [containsCRCRLF]
    split
    · rfl
    · exact h

theorem containsCRCRLF_of_cons {a : Nat} {X : List Nat}
    (h : containsCRCRLF (a :: X) = false) : containsCRCRLF X = false := by
  cases hX : containsCRCRLF X with
  | false => rfl
  | true => rw [containsCRCRLF_cons a X hX] at h; exact absurd h (by simp)

/-- A byte list with no CR LF occurrence is left unchanged by the replacement. -/
theorem replaceCRLF_eq_self : ∀ s : List Nat, containsCRLF s = false → replaceCRLF s = s
  | [], _ => rfl
  | [b], _ => rfl
  | b :: c :: rest, h => by
    simp only [containsCRLF] at h
    by_cases hbc : b = 13 ∧ c = 10
    · rw [if_pos hbc] at h; exact absurd h (by simp)
    · rw [if_neg hbc] at h
      simp only [replaceCRLF, if_neg hbc]
      rw [replaceCRLF_eq_self (c :: rest) h]

/-- On a byte list with no CR CR LF occurrence, one replacement pass removes
every CR LF occurrence. -/
theorem replaceCRLF_no_crlf :
    ∀ s : List Nat, containsCRCRLF s = false → containsCRLF (replaceCRLF s) = false
  | [], _ => rfl
  | [b], _ => by simp [replaceCRLF, containsCRLF]
  | [b, c], _ => by
    by_cases hbc : b = 13 ∧ c = 10
    · simp [replaceCRLF, hbc, containsCRLF]
    · simp only [replaceCRLF, if_neg hbc]
      simp only [containsCRLF]
      rw [if_neg hbc]
  | a :: b :: c :: rest, h => by
    simp only [containsCRCRLF] at h
    by_cases habc : a = 13 ∧ b = 13 ∧ c = 10
    · rw [if_pos habc] at h; exact absurd h (by simp)
    rw [if_neg habc] at h
    have htail : containsCRCRLF (c :: rest) = false := containsCRCRLF_of_cons h
    by_cases hab : a = 13 ∧ b = 10
    · -- head pair is replaced: result is 10 :: replaceCRLF (c :: rest)
      simp only [replaceCRLF, if_pos hab]
      rw [containsCRLF_cons_of_ne 10 (by decide)]
      exact replaceCRLF_no_crlf (c :: rest) htail
    · -- head byte is kept: result is a :: replaceCRLF (b :: c :: rest)
      have ih : containsCRLF (replaceCRLF (b :: c :: rest)) = false :=
        replaceCRLF_no_crlf (b :: c :: rest) h
      simp only [replaceCRLF, if_neg hab]
      by_cases ha : a = 13
      · -- then b is not 10, and b is not 13-with-c-10 (that would be CR CR LF)
        by_cases hbc : b = 13 ∧ c = 10
        · exact absurd ⟨ha, hbc.1, hbc.2⟩ habc
        · have hb10 : b ≠ 10 := fun hb => hab ⟨ha, hb⟩
          simp only [replaceCRLF, if_neg hbc] at ih ⊢
          simp only [containsCRLF]
          rw [if_neg (fun hcon => hb10 hcon.2)]
          exact ih
      · rw [containsCRLF_cons_of_ne a ha]
        exact ih

/-! ## File tree model and the normalizer walk

ConvertLineEndings.py lines 13-44.  A tree node is a file (with its byte
content and two attribute bits: whether open-for-read succeeds and whether
open-for-write succeeds) or a directory with an ordered list of children.
The walk mirrors os.walk top-down: for each directory it first runs the
dirs-pruning block (lines 14-17), then the per-file loop (lines 19-44), then
descends into the child directories that remain after pruning.  The ValueError
that dirs.remove(".git") raises when ".github" is present without ".git" is
modelled as the abort flag of the walk. -/

/-- A file-system tree: files carry content bytes plus readable/writable
attribute bits, directories carry their ordered children. -/
inductive FSTree where
  | file (name : String) (content : List Nat) (readable : Bool) (writable : Bool)
  | dir (name : String) (children : List FSTree)
deriving Repr

/-- One observable action of the normalizer on one file: the converted
info record (line 42), the could-not-open error record (line 31), or the
could-not-write error record (line 44), each naming the file path. -/
inductive NEvent where
  | converted (path : List String)
  | readError (path : List String)
  | writeError (path : List String)
deriving DecidableEq, Repr

/-- The body of the per-file loop (lines 19-44) for a single file: skip
".gitattributes"; otherwise read (emitting an error record and continuing on
failure), replace CR LF by LF, and write back exactly when the transformed
copy differs (emitting an error record on write failure).  Returns the events
emitted for this file and its resulting on-disk content. -/
def processFile (path : List String) (fname : String) (content : List Nat)
    (readable writable : Bool) : List NEvent × List Nat :=
  if fname = ".gitattributes" then ([], content)
  else if readable = false then ([NEvent.readError (path ++ [fname])], content)
  else
    let new_content := replaceCRLF content
    if new_content ≠ content then
      if writable then ([NEvent.converted (path ++ [fname])], new_content)
      else ([NEvent.writeError (path ++ [fname])], content)
    else ([], content)

/-- The per-file loop over the children of one directory: file children are
processed in order, directory children are handled by the recursive walk, not
here. -/
def filesEvents (path : List String) : List FSTree → List NEvent
  | [] => []
  | FSTree.file fn c r w :: tl => (processFile path fn c r w).1 ++ filesEvents path tl
  | FSTree.dir _ _ :: tl => filesEvents path tl

/-- Whether the children list has a directory child with the given name. -/
def hasDirNamed (s : String) : List FSTree → Bool
  | [] => false
  | FSTree.dir n _ :: tl => n = s || hasDirNamed s tl
  | FSTree.file _ _ _ _ :: tl => hasDirNamed s tl

/-- The recursive descent of os.walk into the child directories of one
directory, with the prune flag of that directory (whether lines 15-17 removed
".git" and ".github" from dirs).  Each visited child directory runs the
dirs-pruning block of lines 14-17 first: when it has a ".github" child but no
".git" child, dirs.remove(".git") raises ValueError and the walk aborts (the
Bool of the result); otherwise its files are processed, then its own child
directories.  An abort stops the whole traversal.  -/
def walkSubdirs (path : List String) (prune : Bool) (l : List FSTree) :
    List NEvent × Bool :=
  match l with
  | [] => ([], false)
  | FSTree.file _ _ _ _ :: tl => walkSubdirs path prune tl
  | FSTree.dir dn dch :: tl =>
    if prune && (dn == ".git" || dn == ".github") then walkSubdirs path prune tl
    else
      let inner :=
        if hasDirNamed ".github" dch && !hasDirNamed ".git" dch then ([], true)
        else
          let s := walkSubdirs (path ++ [dn]) (hasDirNamed ".github" dch) dch
          (filesEvents (path ++ [dn]) dch ++ s.1, s.2)
      match inner with
      | (evs, true) => (evs, true)
      | (evs, false) =>
        let r := walkSubdirs path prune tl
        (evs ++ r.1, r.2)
termination_by sizeOf l
decreasing_by
  all_goals simp_wf
  all_goals omega

/-- Processing of one directory of the walk (the body of the os.walk loop,
lines 13-44): the dirs-pruning block first (possibly aborting with the
ValueError of line 16), then the per-file loop, then the descent into the
child directories that survived pruning. -/
def walkDir (path : List String) (dname : String) (children : List FSTree) :
    List NEvent × Bool :=
  if hasDirNamed ".github" children && !hasDirNamed ".git" children then ([], true)
  else
    let s := walkSubdirs (path ++ [dname]) (hasDirNamed ".github" children) children
    (filesEvents (path ++ [dname]) children ++ s.1, s.2)

/-- convert_line_endings_to_unix (lines 6-44) on a root directory tree: the
events of the whole walk and whether the run aborted with the uncaught
ValueError of line 16. -/
def convert_line_endings_to_unix : FSTree → List NEvent × Bool
  | FSTree.file _ _ _ _ => ([], false)
  | FSTree.dir n ch => walkDir [] n ch

/-- The walk of one child directory unfolds through walkDir. -/
theorem walkSubdirs_cons_dir (path : List String) (prune : Bool) (dn : String)
    (dch tl : List FSTree) (hskip : (prune && (dn == ".git" || dn == ".github")) = false) :
    walkSubdirs path prune (FSTree.dir dn dch :: tl) =
      (match walkDir path dn dch with
        | (evs, true) => (evs, true)
        | (evs, false) =>
          let r := walkSubdirs path prune tl
          (evs ++ r.1, r.2)) := by
  rw [walkSubdirs, if_neg (by simp [hskip])]
  rfl

/-! ## Run-level view of the normalizer on a list of file contents

For claims about what one run does to the contents it processes and what a
second run then reports, the per-file loop is viewed as acting on the list of
the contents of the processed files: each content is replaced (line 35) and a
file is reported as changed exactly when the transformed copy differs
(lines 38-42). -/

/-- One normalizer pass over a list of file contents: the rewritten contents
and the number of files reported as changed. -/
def runOnContents (cs : List (List Nat)) : List (List Nat) × Nat :=
  (cs.map replaceCRLF, (cs.filter (fun c => decide (replaceCRLF c ≠ c))).length)

/-- main of ConvertLineEndings.py (lines 47-58): an argument that is not an
existing directory (modelled as none) is reported and the process exits with
status 1 before any walk; otherwise the walk runs, and an uncaught ValueError
abort also ends the process with a nonzero status.  Result: (exit status,
(events, aborted)). -/
def convert_main (arg : Option FSTree) : Nat × (List NEvent × Bool) :=
  match arg with
  | none => (1, ([], false))
  | some t =>
    let r := convert_line_endings_to_unix t
    (if r.2 then 1 else 0, r)

/-! ## Independence of the walk outcome from file contents and attributes

stubFilesT blanks every file of a tree (empty content, readable and writable);
the abort flag of the walk is unchanged, which is how a per-file read or write
failure never ends the traversal early. -/

/-- Blank every file of a children list: empty content, readable, writable.
Directory structure and all names are kept. -/
def stubFilesL : List FSTree → List FSTree
  | [] => []
  | FSTree.file n _ _ _ :: tl => FSTree.file n [] true true :: stubFilesL tl
  | FSTree.dir dn dch :: tl => FSTree.dir dn (stubFilesL dch) :: stubFilesL tl
termination_by l => sizeOf l
decreasing_by
  all_goals simp_wf
  all_goals omega

/-- Blank every file of a tree: empty content, readable, writable. -/
def stubFilesT : FSTree → FSTree
  | FSTree.file n _ _ _ => FSTree.file n [] true true
  | FSTree.dir n ch => FSTree.dir n (stubFilesL ch)

theorem hasDirNamed_stubFilesL (s : String) :
    ∀ l : List FSTree, hasDirNamed s (stubFilesL l) = hasDirNamed s l
  | [] => by rw [stubFilesL]
  | FSTree.file n c r w :: tl => by
    rw [stubFilesL]
    simp only [hasDirNamed]
    exact hasDirNamed_stubFilesL s tl
  | FSTree.dir dn dch :: tl => by
    rw [stubFilesL]
    simp only [hasDirNamed]
    rw [hasDirNamed_stubFilesL s tl]

/-- The abort flag of the walk does not depend on file contents or on the
readable/writable attributes: it is a function of the directory structure
alone. -/
theorem walkSubdirs_abort_stub (path : List String) (prune : Bool) :
    ∀ l : List FSTree,
      (walkSubdirs path prune (stubFilesL l)).2 = (walkSubdirs path prune l).2
  | [] => by rw [stubFilesL]
  | FSTree.file n c r w :: tl => by
    rw [stubFilesL, walkSubdirs, walkSubdirs]
    exact walkSubdirs_abort_stub path prune tl
  | FSTree.dir dn dch :: tl => by
    rw [stubFilesL]
    rw [walkSubdirs]
    conv_rhs => rw [walkSubdirs]
    by_cases hskip : (prune && (dn == ".git" || dn == ".github")) = true
    · rw [if_pos hskip, if_pos hskip]
      exact walkSubdirs_abort_stub path prune tl
    · rw [if_neg hskip, if_neg hskip]
      rw [hasDirNamed_stubFilesL, hasDirNamed_stubFilesL]
      by_cases hcrash :
          (hasDirNamed ".github" dch && !hasDirNamed ".git" dch) = true
      · rw [if_pos hcrash, if_pos hcrash]
      · rw [if_neg hcrash, if_neg hcrash]
        have hrec : (walkSubdirs (path ++ [dn]) (hasDirNamed ".github" dch)
            (stubFilesL dch)).2 =
            (walkSubdirs (path ++ [dn]) (hasDirNamed ".github" dch) dch).2 :=
          walkSubdirs_abort_stub (path ++ [dn]) (hasDirNamed ".github" dch) dch
        cases hs : (walkSubdirs (path ++ [dn]) (hasDirNamed ".github" dch) dch).2
        · rw [hs] at hrec
          cases hst : (walkSubdirs (path ++ [dn]) (hasDirNamed ".github" dch)
              (stubFilesL dch)) with
          | mk evs ab =>
            have hab : ab = false := by rw [hst] at hrec; exact hrec
            subst hab
            cases hso : (walkSubdirs (path ++ [dn]) (hasDirNamed ".github" dch) dch) with
            | mk evs2 ab2 =>
              have hab2 : ab2 = false := by rw [hso] at hs; exact hs
              subst hab2
              simp only
              exact walkSubdirs_abort_stub path prune tl
        · rw [hs] at hrec
          cases hst : (walkSubdirs (path ++ [dn]) (hasDirNamed ".github" dch)
              (stubFilesL dch)) with
          | mk evs ab =>
            have hab : ab = true := by rw [hst] at hrec; exact hrec
            subst hab
            cases hso : (walkSubdirs (path ++ [dn]) (hasDirNamed ".github" dch) dch) with
            | mk evs2 ab2 =>
              have hab2 : ab2 = true := by rw [hso] at hs; exact hs
              subst hab2
              simp only
termination_by l => sizeOf l
decreasing_by
  all_goals simp_wf
  all_goals omega

/-- The walk outcome (aborted or completed) of the whole run is unchanged when
every file is made empty, readable and writable. -/
theorem convert_abort_stub (t : FSTree) :
    (convert_line_endings_to_unix (stubFilesT t)).2 =
      (convert_line_endings_to_unix t).2 := by
  cases t with
  | file n c r w => rfl
  | dir n ch =>
    simp only [stubFilesT, convert_line_endings_to_unix, walkDir]
    rw [hasDirNamed_stubFilesL, hasDirNamed_stubFilesL]
    by_cases hcrash : (hasDirNamed ".github" ch && !hasDirNamed ".git" ch) = true
    · rw [if_pos hcrash, if_pos hcrash]
    · rw [if_neg hcrash, if_neg hcrash]
      simp only
      exact walkSubdirs_abort_stub ([] ++ [n]) (hasDirNamed ".github" ch) ch

/-! ## String primitives used by the auditor model

ShellCheck.py uses str.strip, str.startswith, the in operator (substring
containment), str.endswith.  They are modelled character-list-wise so that
every use is executable and transparent. -/

/-- The whitespace set of Python str.strip for the ASCII range. -/
def isPySpace (ch : Char) : Bool :=
  ch == ' ' || ch == '\t' || ch == '\n' || ch == '\r' ||
    ch == Char.ofNat 11 || ch == Char.ofNat 12

/-- Model of str.strip(): drop leading and trailing whitespace. -/
def pyStrip (s : String) : String :=
  String.mk (((s.toList.dropWhile isPySpace).reverse.dropWhile isPySpace).reverse)

/-- Model of s.startswith(pre). -/
def pyStartsWith (pre s : String) : Bool :=
  pre.toList.isPrefixOf s.toList

/-- Model of the Python expression needle in hay (substring containment). -/
def containsSub (needle hay : String) : Bool :=
  (hay.toList.tails).any (fun t => needle.toList.isPrefixOf t)

/-- Model of s.endswith(suf). -/
def pyEndsWith (suf s : String) : Bool :=
  suf.toList.isSuffixOf s.toList

/-! ## The auditor: discovery (find_sh_files, ShellCheck.py lines 8-18)

The discovery walk applies no directory pruning at all: every directory is
descended into and every file whose name ends with ".sh" is collected, as
(directory path, filename) pairs in os.walk order (the files of a directory
first, then its subdirectories).  allFilesAux is the same traversal with no
name filter, used to state that discovery filters on the suffix alone. -/

/-- The .sh files directly inside one directory (the inner for loop of
lines 15-17 for one os.walk tuple). -/
def shHere (path : List String) (l : List FSTree) : List (List String × String) :=
  l.filterMap (fun c =>
    match c with
    | FSTree.file fn _ _ _ => if pyEndsWith ".sh" fn then some (path, fn) else none
    | FSTree.dir _ _ => none)

/-- All files directly inside one directory, with no name filter. -/
def allHere (path : List String) (l : List FSTree) : List (List String × String) :=
  l.filterMap (fun c =>
    match c with
    | FSTree.file fn _ _ _ => some (path, fn)
    | FSTree.dir _ _ => none)

/-- Recursive descent of find_sh_files below one directory: for each child
directory, its .sh files and then its own descent, in order. -/
def findShAux (path : List String) (l : List FSTree) : List (List String × String) :=
  match l with
  | [] => []
  | FSTree.file _ _ _ _ :: tl => findShAux path tl
  | FSTree.dir dn dch :: tl =>
    (shHere (path ++ [dn]) dch ++ findShAux (path ++ [dn]) dch) ++ findShAux path tl
termination_by sizeOf l
decreasing_by
  all_goals simp_wf
  all_goals omega

/-- The same descent with no name filter. -/
def allFilesAux (path : List String) (l : List FSTree) : List (List String × String) :=
  match l with
  | [] => []
  | FSTree.file _ _ _ _ :: tl => allFilesAux path tl
  | FSTree.dir dn dch :: tl =>
    (allHere (path ++ [dn]) dch ++ allFilesAux (path ++ [dn]) dch) ++ allFilesAux path tl
termination_by sizeOf l
decreasing_by
  all_goals simp_wf
  all_goals omega

/-- find_sh_files (lines 8-18): every file under the root whose name ends with
".sh", as (directory path, filename) pairs in walk order. -/
def find_sh_files : FSTree → List (List String × String)
  | FSTree.file _ _ _ _ => []
  | FSTree.dir n ch => shHere [n] ch ++ findShAux [n] ch

/-- The unfiltered enumeration of every file under the root. -/
def allFilesUnder : FSTree → List (List String × String)
  | FSTree.file _ _ _ _ => []
  | FSTree.dir n ch => allHere [n] ch ++ allFilesAux [n] ch

/-! ## The auditor: external-tool path (run_shellcheck, lines 20-30, and
main lines 79-90)

subprocess.run is called without check=True, so a non-zero completion status
returns an ordinary CompletedProcess (stdout, stderr, returncode) rather than
raising; ToolResult is that triple, and reportToolFile is the report block of
main lines 82-90 for one file. -/

/-- The captured outcome of one external-tool invocation: both streams and
the completion status. -/
structure ToolResult where
  toolOut : String
  toolErr : String
  returncode : Int
deriving Repr

/-- The per-file report of the tool path (main lines 82-90): a zero status
prints the clean line; a non-zero status prints the issues header and each
stripped stream when it is non-empty. -/
def reportToolFile (r : ToolResult) : List String :=
  if r.returncode = 0 then ["No issues found by ShellCheck."]
  else
    "ShellCheck issues:" ::
      ((if pyStrip r.toolOut ≠ "" then [pyStrip r.toolOut] else []) ++
        (if pyStrip r.toolErr ≠ "" then [pyStrip r.toolErr] else []))

/-! ## The auditor: fallback path (naive_sh_check, lines 32-53, and main
lines 91-99)

The open of line 42 uses errors="ignore", so decoding is total and never
raises; an OSError from open itself is not caught anywhere, which the model
renders as the error of the Except.  A processed file is summarised by the
attributes the checks consult: whether open succeeds, the raw first line as
decoded, and the execute permission bit. -/

/-- The per-file attributes the fallback checks consult. -/
structure AuditFile where
  readable : Bool
  firstLine : String
  executable : Bool
deriving Repr

/-- naive_sh_check (lines 32-53): an unreadable file raises (error of the
Except); otherwise the stripped first line is checked for a shebang and for
the substrings "bash" and "sh", the execute bit is checked independently, and
the accumulated finding strings are returned. -/
def naive_sh_check (f : AuditFile) : Except Unit (List String) :=
  if f.readable = false then Except.error ()
  else
    let first_line := pyStrip f.firstLine
    let shebangErrs :=
      if pyStartsWith "#!" first_line = false then
        ["Missing shebang (#!/bin/bash or similar) in first line."]
      else if containsSub "bash" first_line = false ∧ containsSub "sh" first_line = false then
        ["Shebang does not specify bash/sh: " ++ first_line]
      else []
    let execErrs :=
      if f.executable = false then ["File is not set as executable (chmod +x)."] else []
    Except.ok (shebangErrs ++ execErrs)

/-- The per-file report of the fallback path (main lines 93-99). -/
def reportNaiveFile (errs : List String) : List String :=
  if errs.isEmpty then ["Naive check: no issues found."]
  else "Naive check found potential issues:" :: errs.map (fun e => "  - " ++ e)

/-- The fallback branch of the per-file loop of main (lines 91-99) over the
discovered files: each file is checked in turn; an uncaught OSError from
naive_sh_check ends the run at once, so the reports of the remaining files
are never produced. -/
def mainFallback : List AuditFile → Except Unit (List (List String))
  | [] => Except.ok []
  | f :: tl =>
    match naive_sh_check f with
    | Except.error e => Except.error e
    | Except.ok errs =>
      match mainFallback tl with
      | Except.error e => Except.error e
      | Except.ok rest => Except.ok (reportNaiveFile errs :: rest)

/-- main of ShellCheck.py (lines 55-99): an argument that is not an existing
directory (modelled as none) exits with status 1 before any discovery or
check; an empty discovery prints the no-files message and exits 0; otherwise
the one-time tool probe selects the path used for every file, with the file
attributes and tool outcomes supplied as functions of the file identifier.
Result: exit status and the per-file report blocks, or the error of an
uncaught OSError of the fallback path. -/
def shellcheck_main (arg : Option FSTree) (toolInstalled : Bool)
    (toolRun : List String × String → ToolResult)
    (attrs : List String × String → AuditFile) :
    Except Unit (Nat × List (List String)) :=
  match arg with
  | none => Except.ok (1, [])
  | some t =>
    let fs := find_sh_files t
    if fs.isEmpty then Except.ok (0, [["No .sh files found."]])
    else if toolInstalled then
      Except.ok (0, fs.map (fun p => reportToolFile (toolRun p)))
    else
      match mainFallback (fs.map attrs) with
      | Except.error e => Except.error e
      | Except.ok reports => Except.ok (0, reports)

/-! ## Claim theorems -/

/-- Claim C1, counterexample: the per-file transformation is not a projection.
For the byte sequence CR CR LF, replacing every occurrence of CR LF with LF
(left to right, non-overlapping, as bytes.replace does) yields CR LF, which
still contains the two-byte sequence, and a second normalizer run on the tree
holding that single file reports one changed file, not zero. -/
theorem claim1_counterexample :
    containsCRLF (replaceCRLF [13, 13, 10]) = true ∧
    (runOnContents ((runOnContents [[13, 13, 10]]).1)).2 ≠ 0 := by decide

/-- Claim C1 (amended): for every byte sequence containing no occurrence of
the three-byte sequence CR CR LF, one replacement pass leaves zero occurrences
of CR LF, and a second normalizer run on the rewritten contents reports zero
changed files. -/
theorem claim1_projection (cs : List (List Nat))
    (h : ∀ c ∈ cs, containsCRCRLF c = false) :
    (∀ c ∈ cs, containsCRLF (replaceCRLF c) = false) ∧
    (runOnContents ((runOnContents cs).1)).2 = 0 := by
  refine ⟨fun c hc => replaceCRLF_no_crlf c (h c hc), ?_⟩
  simp only [runOnContents]
  rw [List.length_eq_zero, List.filter_eq_nil_iff]
  intro a ha
  obtain ⟨c, hc, rfl⟩ := List.mem_map.mp ha
  simp only [decide_eq_true_eq, not_not]
  exact replaceCRLF_eq_self _ (replaceCRLF_no_crlf c (h c hc))

/-- Claim C1, witness: on a content list whose one file holds CR LF followed
by a letter, the second run reports zero changed files. -/
theorem claim1_witness :
    (runOnContents ((runOnContents [[13, 10, 65]]).1)).2 = 0 :=
  (claim1_projection [[13, 10, 65]] (by decide)).2

/-- Claim C2 (code_bug): the configured exclusion is not a hard filter.  On a
tree whose root holds a directory named ".git" with no sibling ".github", the
walk descends into the ".git" subtree and converts the CR LF file inside it in
place, because lines 15-17 remove ".git" from the walk only when a sibling
".github" is present. -/
theorem claim2_git_subtree_processed :
    convert_line_endings_to_unix
      (FSTree.dir "repo" [FSTree.dir ".git" [FSTree.file "config" [13, 10] true true]]) =
      ([NEvent.converted ["repo", ".git", "config"]], false) := by
  simp [convert_line_endings_to_unix, walkDir, walkSubdirs, hasDirNamed, filesEvents,
    processFile, replaceCRLF]

/-- Claim C3: a visited directory with a child directory ".github" but no
child directory ".git" makes dirs.remove(".git") raise an uncaught ValueError:
the walk of that directory aborts before any of its files is processed.  A
child directory named ".git" (or ".github") is skipped by the descent exactly
when the pruning of lines 15-17 ran for the parent (the prune flag is true,
which walkDir sets exactly when a ".github" child is present); with the prune
flag false the ".git" child is walked in full, and an abort inside it stops
the traversal before the remaining entries. -/
theorem claim3_github_without_git :
    (∀ (path : List String) (n : String) (ch : List FSTree),
      hasDirNamed ".github" ch = true → hasDirNamed ".git" ch = false →
      walkDir path n ch = ([], true)) ∧
    (∀ (path : List String) (g tl : List FSTree) (dn : String),
      dn = ".git" ∨ dn = ".github" →
      walkSubdirs path true (FSTree.dir dn g :: tl) = walkSubdirs path true tl) ∧
    (∀ (path : List String) (g tl : List FSTree),
      walkSubdirs path false (FSTree.dir ".git" g :: tl) =
        (if (walkDir path ".git" g).2 then ((walkDir path ".git" g).1, true)
         else ((walkDir path ".git" g).1 ++ (walkSubdirs path false tl).1,
           (walkSubdirs path false tl).2))) := by
  refine ⟨?_, ?_, ?_⟩
  · intro path n ch h1 h2
    rw [walkDir, if_pos (by rw [h1, h2]; rfl)]
  · intro path g tl dn hdn
    rw [walkSubdirs, if_pos ?_]
    rcases hdn with h | h <;> simp [h]
  · intro path g tl
    rw [walkSubdirs_cons_dir path false ".git" g tl (by rfl)]
    cases hw : walkDir path ".git" g with
    | mk evs ab =>
      cases ab with
      | true => simp
      | false => simp

/-- Claim C5: for a visited (non-skipped, readable) file, the on-disk content
changes exactly when the transformed copy differs from the original and the
write succeeds; any change makes the content the transformed copy; the
converted record is emitted exactly when the file is written back; and a
content with no CR LF occurrence is left byte-for-byte unchanged with no
record emitted. -/
theorem claim5_write_gated (path : List String) (fname : String) (c : List Nat)
    (w : Bool) (hname : fname ≠ ".gitattributes") :
    ((processFile path fname c true w).2 ≠ c ↔ (replaceCRLF c ≠ c ∧ w = true)) ∧
    ((processFile path fname c true w).2 ≠ c →
      (processFile path fname c true w).2 = replaceCRLF c) ∧
    (NEvent.converted (path ++ [fname]) ∈ (processFile path fname c true w).1 ↔
      (replaceCRLF c ≠ c ∧ w = true)) ∧
    (containsCRLF c = false → processFile path fname c true w = ([], c)) := by
  by_cases hrc : replaceCRLF c = c
  · refine ⟨?_, ?_, ?_, ?_⟩
    · simp [processFile, hname, hrc]
    · simp [processFile, hname, hrc]
    · simp [processFile, hname, hrc]
    · intro _; simp [processFile, hname, hrc]
  · cases w with
    | true =>
      refine ⟨?_, ?_, ?_, ?_⟩
      · simp [processFile, hname, hrc]
      · simp [processFile, hname, hrc]
      · simp [processFile, hname, hrc]
      · intro hno; exact absurd (replaceCRLF_eq_self c hno) hrc
    | false =>
      refine ⟨?_, ?_, ?_, ?_⟩
      · simp [processFile, hname, hrc]
      · simp [processFile, hname, hrc]
      · simp [processFile, hname, hrc]
      · intro hno; exact absurd (replaceCRLF_eq_self c hno) hrc

/-- Claim C5, witness: a readable, writable file named a.txt with content
CR LF is written back as LF and reported converted. -/
theorem claim5_witness :
    NEvent.converted (["r"] ++ ["a.txt"]) ∈ (processFile ["r"] "a.txt" [13, 10] true true).1 :=
  (claim5_write_gated ["r"] "a.txt" [13, 10] true (by decide)).2.2.1.mpr (by decide)

/-- The per-file loop distributes over concatenation of children lists. -/
theorem filesEvents_append (path : List String) :
    ∀ xs ys : List FSTree,
      filesEvents path (xs ++ ys) = filesEvents path xs ++ filesEvents path ys
  | [], ys => rfl
  | FSTree.file fn c r w :: tl, ys => by
    simp only [List.cons_append, filesEvents, List.append_eq,
      filesEvents_append path tl ys, List.append_assoc]
  | FSTree.dir dn dch :: tl, ys => by
    simp only [List.cons_append, filesEvents, List.append_eq,
      filesEvents_append path tl ys]

/-- Claim C8: a read failure on one file of a directory is caught at per-file
scope: the could-not-open error record naming the file is emitted in place of
its processing and every other file of the directory is processed exactly as
before; a write failure likewise yields the could-not-write error record and
the loop continues; and the walk outcome (completed or aborted) is a function
of the directory structure alone, unchanged when every file is made readable
and writable, so a file-level I/O failure never ends the run. -/
theorem claim8_io_failure_contained (path : List String) (xs ys : List FSTree)
    (fname : String) (c : List Nat) (w : Bool) (hname : fname ≠ ".gitattributes") :
    (filesEvents path (xs ++ FSTree.file fname c false w :: ys) =
      filesEvents path xs ++ NEvent.readError (path ++ [fname]) :: filesEvents path ys) ∧
    (replaceCRLF c ≠ c →
      filesEvents path (xs ++ FSTree.file fname c true false :: ys) =
        filesEvents path xs ++ NEvent.writeError (path ++ [fname]) :: filesEvents path ys) ∧
    (∀ t : FSTree,
      (convert_line_endings_to_unix (stubFilesT t)).2 =
        (convert_line_endings_to_unix t).2) := by
  refine ⟨?_, ?_, convert_abort_stub⟩
  · rw [filesEvents_append]
    simp [filesEvents, processFile, hname]
  · intro hrc
    rw [filesEvents_append]
    simp [filesEvents, processFile, hname, hrc]

/-- Claim C8, witness: an unreadable file named a alone in a directory yields
exactly the could-not-open record. -/
theorem claim8_witness :
    filesEvents [] ([] ++ FSTree.file "a" [13, 10] false true :: []) =
      filesEvents [] [] ++ NEvent.readError ([] ++ ["a"]) :: filesEvents [] [] :=
  (claim8_io_failure_contained [] [] [] "a" [13, 10] true (by decide)).1

/-- Claim C9: for either script, an argument that is not an existing directory
(modelled as the none root) produces exit status 1, an empty event trace for
the normalizer (no file read or written, no walk started) and an empty report
list for the auditor (no file discovered or checked), for every tool
availability, tool outcome and file attribute assignment. -/
theorem claim9_invalid_root :
    convert_main none = (1, ([], false)) ∧
    (∀ (toolInstalled : Bool) (toolRun : List String × String → ToolResult)
        (attrs : List String × String → AuditFile),
      shellcheck_main none toolInstalled toolRun attrs = Except.ok (1, [])) :=
  ⟨rfl, fun _ _ _ => rfl⟩

/-- The .sh files of one directory are the suffix filter of all its files. -/
theorem shHere_eq_filter (path : List String) (l : List FSTree) :
    shHere path l = (allHere path l).filter (fun pr => pyEndsWith ".sh" pr.2) := by
  induction l with
  | nil => rfl
  | cons hd tl ih =>
    cases hd with
    | file fn c r w =>
      simp only [shHere, allHere, List.filterMap_cons] at *
      by_cases h : pyEndsWith ".sh" fn = true
      · simp [h, List.filter_cons, ih]
      · simp only [Bool.not_eq_true] at h
        simp [h, List.filter_cons, ih]
    | dir dn dch =>
      simp only [shHere, allHere, List.filterMap_cons] at *
      exact ih

/-- The recursive descent of discovery filters on the suffix alone. -/
theorem findShAux_eq_filter (path : List String) (l : List FSTree) :
    findShAux path l = (allFilesAux path l).filter (fun pr => pyEndsWith ".sh" pr.2) := by
  match l with
  | [] => rw [findShAux, allFilesAux]; rfl
  | FSTree.file fn c r w :: tl =>
    rw [findShAux, allFilesAux]
    exact findShAux_eq_filter path tl
  | FSTree.dir dn dch :: tl =>
    rw [findShAux, allFilesAux, List.filter_append, List.filter_append]
    rw [shHere_eq_filter, findShAux_eq_filter (path ++ [dn]) dch,
      findShAux_eq_filter path tl]
termination_by sizeOf l
decreasing_by
  all_goals simp_wf
  all_goals omega

/-- Claim C10: the discovery of the auditor applies no directory-name
exclusion: for every tree, find_sh_files is exactly the unfiltered enumeration
of every file under the root restricted to names ending in ".sh", and in
particular a .sh file inside a ".git" directory is yielded. -/
theorem claim10_no_exclusion :
    (∀ t : FSTree,
      find_sh_files t = (allFilesUnder t).filter (fun pr => pyEndsWith ".sh" pr.2)) ∧
    (find_sh_files
      (FSTree.dir "repo" [FSTree.dir ".git" [FSTree.file "hook.sh" [] true true]]) =
      [(["repo", ".git"], "hook.sh")]) := by
  constructor
  · intro t
    cases t with
    | file fn c r w => rfl
    | dir n ch =>
      rw [find_sh_files, allFilesUnder, List.filter_append, shHere_eq_filter,
        findShAux_eq_filter]
  · simp [find_sh_files, findShAux, shHere, pyEndsWith, List.isSuffixOf]

/-- Claim C6: on the external-tool path, a zero completion status is reported
as exactly the clean line; a non-zero status opens the report with the issues
header (so the file is never reported clean), prints each stripped stream when
it is non-empty, and prints nothing else: the block length is the header plus
one line per non-empty stream.  A non-zero status is an ordinary value of the
model (subprocess.run is called without check=True), so it never raises. -/
theorem claim6_tool_report (r : ToolResult) :
    (r.returncode = 0 → reportToolFile r = ["No issues found by ShellCheck."]) ∧
    (r.returncode ≠ 0 →
      (reportToolFile r).head? = some "ShellCheck issues:" ∧
      reportToolFile r ≠ ["No issues found by ShellCheck."] ∧
      (pyStrip r.toolOut ≠ "" → pyStrip r.toolOut ∈ reportToolFile r) ∧
      (pyStrip r.toolErr ≠ "" → pyStrip r.toolErr ∈ reportToolFile r) ∧
      (reportToolFile r).length =
        1 + (if pyStrip r.toolOut = "" then 0 else 1) +
          (if pyStrip r.toolErr = "" then 0 else 1)) := by
  constructor
  · intro h; simp [reportToolFile, h]
  · intro h
    rw [reportToolFile, if_neg h]
    by_cases ho : pyStrip r.toolOut = ""
    · by_cases he : pyStrip r.toolErr = ""
      · refine ⟨rfl, ?_, by simp [ho], by simp [he], by simp [ho, he]⟩
        simp [ho, he]
      · refine ⟨rfl, ?_, by simp [ho], by simp [he], by simp [ho, he]⟩
        simp [ho, he]
    · by_cases he : pyStrip r.toolErr = ""
      · refine ⟨rfl, ?_, by simp [ho], by simp [he], by simp [ho, he]⟩
        simp [ho, he]
      · refine ⟨rfl, ?_, by simp [ho], by simp [he], by simp [ho, he]⟩
        simp [ho, he]

/-- Two strings differ when the first character of the left one differs from
the first character of the right prefix, whatever the right suffix. -/
theorem string_ne_append_of_head_ne (a pre l : String)
    (h : a.data.head? ≠ pre.data.head?) (hpre : pre.data ≠ []) : a ≠ pre ++ l := by
  intro he
  apply h
  rw [congrArg String.data he, String.data_append]
  cases hp : pre.data with
  | nil => exact absurd hp hpre
  | cons x xs => simp [hp]

/-- Claim C7: on the fallback path, for a file whose open succeeds the two
heuristic checks apply independently: the missing-shebang finding is present
exactly when the stripped first line does not start with the shebang marker;
the finding quoting the shebang line is present exactly when the line starts
with the marker but contains neither the substring bash nor the substring sh;
the not-executable finding is present exactly when the execute bit is absent;
and a file with no finding is reported as no issues found, while any finding
list is rendered as the issues header plus one bullet per finding. -/
theorem claim7_naive_checks (f : AuditFile) (hread : f.readable = true) :
    ∃ errs, naive_sh_check f = Except.ok errs ∧
      (("Missing shebang (#!/bin/bash or similar) in first line." ∈ errs) ↔
        pyStartsWith "#!" (pyStrip f.firstLine) = false) ∧
      ((("Shebang does not specify bash/sh: " ++ pyStrip f.firstLine) ∈ errs) ↔
        (pyStartsWith "#!" (pyStrip f.firstLine) = true ∧
          containsSub "bash" (pyStrip f.firstLine) = false ∧
          containsSub "sh" (pyStrip f.firstLine) = false)) ∧
      (("File is not set as executable (chmod +x)." ∈ errs) ↔ f.executable = false) ∧
      (errs = [] → reportNaiveFile errs = ["Naive check: no issues found."]) ∧
      (errs ≠ [] → reportNaiveFile errs =
        "Naive check found potential issues:" :: errs.map (fun e => "  - " ++ e)) := by
  have hmq : "Missing shebang (#!/bin/bash or similar) in first line." ≠
      "Shebang does not specify bash/sh: " ++ pyStrip f.firstLine :=
    string_ne_append_of_head_ne _ _ _ (by decide) (by decide)
  have hqm := Ne.symm hmq
  have heq : "File is not set as executable (chmod +x)." ≠
      "Shebang does not specify bash/sh: " ++ pyStrip f.firstLine :=
    string_ne_append_of_head_ne _ _ _ (by decide) (by decide)
  have hqe := Ne.symm heq
  have hme : "Missing shebang (#!/bin/bash or similar) in first line." ≠
      "File is not set as executable (chmod +x)." := by decide
  have hem := Ne.symm hme
  refine ⟨((if pyStartsWith "#!" (pyStrip f.firstLine) = false then
        ["Missing shebang (#!/bin/bash or similar) in first line."]
      else if containsSub "bash" (pyStrip f.firstLine) = false ∧
          containsSub "sh" (pyStrip f.firstLine) = false then
        ["Shebang does not specify bash/sh: " ++ pyStrip f.firstLine]
      else []) ++
      (if f.executable = false then ["File is not set as executable (chmod +x)."]
        else [])), by simp [naive_sh_check, hread], ?_, ?_, ?_, ?_, ?_⟩ <;>
    by_cases h1 : pyStartsWith "#!" (pyStrip f.firstLine) = false <;>
    by_cases h2 : containsSub "bash" (pyStrip f.firstLine) = false ∧
        containsSub "sh" (pyStrip f.firstLine) = false <;>
    by_cases h3 : f.executable = false <;>
    simp_all [reportNaiveFile]

/-- Claim C7, witness: a readable, executable file whose first line is a bash
shebang satisfies every heuristic. -/
theorem claim7_witness :
    ∃ errs, naive_sh_check ⟨true, "#!/bin/bash", true⟩ = Except.ok errs ∧
      (("Missing shebang (#!/bin/bash or similar) in first line." ∈ errs) ↔
        pyStartsWith "#!" (pyStrip "#!/bin/bash") = false) ∧
      ((("Shebang does not specify bash/sh: " ++ pyStrip "#!/bin/bash") ∈ errs) ↔
        (pyStartsWith "#!" (pyStrip "#!/bin/bash") = true ∧
          containsSub "bash" (pyStrip "#!/bin/bash") = false ∧
          containsSub "sh" (pyStrip "#!/bin/bash") = false)) ∧
      (("File is not set as executable (chmod +x)." ∈ errs) ↔
        (⟨true, "#!/bin/bash", true⟩ : AuditFile).executable = false) ∧
      (errs = [] → reportNaiveFile errs = ["Naive check: no issues found."]) ∧
      (errs ≠ [] → reportNaiveFile errs =
        "Naive check found potential issues:" :: errs.map (fun e => "  - " ++ e)) :=
  claim7_naive_checks ⟨true, "#!/bin/bash", true⟩ rfl

/-- Claim C4, counterexample: a failure to open a file in the shebang check
does abort the run.  With two discovered files, the first unreadable and the
second a well-formed script, the fallback loop propagates the uncaught OSError
of the open on line 42: the run ends with the error and the report of the
second file is never produced. -/
theorem claim4_counterexample :
    mainFallback [⟨false, "", true⟩, ⟨true, "#!/bin/sh", true⟩] = Except.error () := rfl

/-- Claim C4 (amended): a decoding failure can never abort the fallback run,
because the open of line 42 uses errors="ignore" and decoding is total; and
when every discovered file can be opened, the run continues to completion over
all the files, producing one report block per file.  An unreadable file (open
itself fails), however, raises an uncaught OSError that ends the run. -/
theorem claim4_fallback_total (files : List AuditFile)
    (h : ∀ f ∈ files, f.readable = true) :
    ∃ reports, mainFallback files = Except.ok reports ∧
      reports.length = files.length := by
  induction files with
  | nil => exact ⟨[], rfl, rfl⟩
  | cons f tl ih =>
    obtain ⟨rs, hrs, hlen⟩ := ih (fun g hg => h g (List.mem_cons_of_mem f hg))
    cases hnc : naive_sh_check f with
    | error e =>
      have hf : f.readable = true := h f (List.mem_cons_self f tl)
      simp [naive_sh_check, hf] at hnc
    | ok errs =>
      refine ⟨reportNaiveFile errs :: rs, ?_, by simp [hlen]⟩
      simp [mainFallback, hnc, hrs]

/-- Claim C4, witness: a run over one openable file completes with one
report. -/
theorem claim4_witness :
    ∃ reports, mainFallback [⟨true, "#!/bin/bash", true⟩] = Except.ok reports ∧
      reports.length = [(⟨true, "#!/bin/bash", true⟩ : AuditFile)].length :=
  claim4_fallback_total [⟨true, "#!/bin/bash", true⟩]
    (fun g hg => by rw [List.mem_singleton] at hg; rw [hg])

end ProxmoxScripts
